import Mathlib

/-!
Verification of the mdslice block-segmentation parser
(`src/mdslice/parser.py`, `constants.py`, `models.py`).

The parser is a single pass over input lines: each line is stripped of its
trailing newlines and surrounding whitespace, classified by a fixed priority
order of pattern matchers (fence close while inside a fence, blank, fence
open, ATX header, table row, image, block quote, list item, paragraph
fallback), and accumulated into a buffer that is flushed into finalized
sections.  The definitions below are a direct shallow embedding of that
code: Python strings become Lean `String`, the compiled regular expressions
become explicit functions on the character list of the already-stripped
line (each is anchored and deterministic, so the translation is exact for
newline-free lines), and the mutable locals of `parse_lines` become the
fields of an explicit state record threaded through a fold.
-/

namespace Mdslice

/-- The backtick character (code point 96), one of the two fence characters
of `_FENCE_OPEN_RE = re.compile(r"^([`~]{3,})(.*)$")`. -/
def backtick : Char := Char.ofNat 96

/-- ASCII whitespace as Python's `str.strip()` / regex `\s` see it:
space, tab, newline, carriage return, vertical tab, form feed. -/
def pyIsSpace (c : Char) : Bool :=
  c == ' ' || c == '\t' || c == '\n' || c == '\r' || c == '\x0b' || c == '\x0c'

/-- Python `s.rstrip("\n")`: remove every trailing newline character. -/
def rstripNl (s : String) : String :=
  String.mk ((s.data.reverse.dropWhile (fun c => c == '\n')).reverse)

/-- Python `s.strip()`: remove leading and trailing whitespace. -/
def pyStrip (s : String) : String :=
  String.mk (((s.data.dropWhile pyIsSpace).reverse.dropWhile pyIsSpace).reverse)

/-- Python `"".join(buffer)`. -/
def strJoin (l : List String) : String :=
  String.mk (l.map String.data).flatten

/-- Python `s.split()[0]` on a non-empty stripped string: the first
whitespace-delimited token. -/
def firstToken (s : String) : String :=
  String.mk ((s.data.dropWhile pyIsSpace).takeWhile (fun c => !(pyIsSpace c)))

/-- `models.SectionType`. -/
inductive SectionType where
  | NONE
  | HEADER
  | INFO
  | PARAGRAPH
  | LIST
  | CODE
  | TABLE
  | IMAGE
  | QUOTE
deriving DecidableEq, Repr

/-- `models.ParsedSection`: type, content, hierarchical depth (0 outside
headers) and the optional metadata dictionary, which in this code base only
ever holds string values. -/
structure ParsedSection where
  type : SectionType
  content : String
  depth : Nat
  meta : Option (List (String × String))
deriving DecidableEq, Repr

/-- A character that `[`~]` of the fence regexes accepts. -/
def isFenceChar (c : Char) : Bool :=
  c == backtick || c == '~'

/-- `_FENCE_OPEN_RE = r"^([`~]{3,})(.*)$"` applied to the stripped line:
on success, the first character of the fence run (Python `fence[0]`), the
run length (`len(fence)`) and the remainder of the line (`group(2)`). -/
def fenceOpenMatch (s : String) : Option (Char × Nat × String) :=
  match s.data.takeWhile isFenceChar with
  | [] => none
  | c :: cs =>
    if 2 ≤ cs.length then
      some (c, cs.length + 1, String.mk (s.data.drop (cs.length + 1)))
    else none

/-- `_FENCE_CLOSE_RE = r"^([`~]{3,})\s*$"` on the stripped line, combined
with the two extra checks of the close branch of `parse_lines`:
`m_close.group(1)[0] == fence_char` and `len(m_close.group(1)) >= fence_len`.
Because the line was already stripped, `\s*` can only match the empty
string, so the whole line must be a run of fence characters. -/
def fenceCloseHit (stripped : String) (fence_char : String) (fence_len : Nat) : Bool :=
  match stripped.data with
  | [] => false
  | c :: cs =>
    (c :: cs).all isFenceChar && decide (3 ≤ (c :: cs).length)
      && !(fence_char == "") && (String.singleton c == fence_char)
      && decide (fence_len ≤ (c :: cs).length)

/-- `_HEADER_RE = r"^(#{1,6})\s*(.*)$"` on the stripped line: the greedy
group takes at most six leading hash marks, `\s*` swallows the following
whitespace, the rest is the content group. -/
def headerMatch (s : String) : Option (Nat × String) :=
  match s.data.takeWhile (fun c => c == '#') with
  | [] => none
  | _ :: cs =>
    let depth := min (cs.length + 1) 6
    some (depth, String.mk ((s.data.drop depth).dropWhile pyIsSpace))

/-- `_TABLE_RE = r"^\|.*\|\s*$"` on the stripped line: at least two
characters, starting and ending with a pipe. -/
def tableMatch (s : String) : Bool :=
  match s.data with
  | [] => false
  | c :: cs => c == '|' && (cs.getLast? == some '|')

/-- `_IMAGE_RE = r"^!\[[^\]]*\]\([^\)]*\)"` as a prefix match on the
stripped line. -/
def imageMatch (s : String) : Bool :=
  match s.data with
  | '!' :: '[' :: rest =>
    match rest.dropWhile (fun c => !(c == ']')) with
    | ']' :: '(' :: rest2 => (rest2.dropWhile (fun c => !(c == ')'))).head? == some ')'
    | _ => false
  | _ => false

/-- `_QUOTE_RE = r"^>\s?"` as a prefix match: the line starts with `>`. -/
def quoteMatch (s : String) : Bool :=
  s.data.head? == some '>'

/-- `_LIST_RE = r"^(?:[*+-]|\d+\.)\s+"` as a prefix match: a bullet marker
or a digit run followed by a dot, then at least one whitespace character. -/
def listMatch (s : String) : Bool :=
  match s.data with
  | [] => false
  | c :: cs =>
    if c == '*' || c == '+' || c == '-' then
      match cs with
      | d :: _ => pyIsSpace d
      | [] => false
    else
      match s.data.takeWhile Char.isDigit with
      | [] => false
      | ds =>
        match s.data.drop ds.length with
        | '.' :: e :: _ => pyIsSpace e
        | _ => false

/-- The blank-line test of `parse_lines`: the stripped line is empty or one
of the literal non-breaking-space markers. -/
def isBlankStripped (stripped : String) : Bool :=
  stripped == "" || stripped == "&nbsp" || stripped == "&nbsp;"

/-- `meta={"lang": code_lang} if code_lang else None` of the fence-close
branch: Python truthiness makes both `None` and the empty string produce no
metadata. -/
def mkMeta (code_lang : Option String) : Option (List (String × String)) :=
  match code_lang with
  | none => none
  | some l => if l == "" then none else some [("lang", l)]

/-- The mutable locals of `parse_lines` as an explicit state record. -/
structure ParseState where
  sections : List ParsedSection
  current_buffer : List String
  current_type : SectionType
  current_header_depth : Nat
  in_code_block : Bool
  fence_char : String
  fence_len : Nat
  code_lang : Option String
deriving DecidableEq, Repr

/-- The state `parse_lines` starts from. -/
def initState : ParseState :=
  ⟨[], [], SectionType.NONE, 0, false, "", 0, none⟩

/-- `parser._flush`: a no-op on an empty buffer; otherwise join the buffered
raw lines, strip trailing newlines, append one section and clear the
buffer.  Returns the new buffer and the new section list. -/
def _flush (buffer : List String) (secs : List ParsedSection) (sec_type : SectionType)
    (header_depth : Nat) (meta : Option (List (String × String))) :
    List String × List ParsedSection :=
  if buffer.isEmpty then (buffer, secs)
  else ([], secs ++ [⟨sec_type, rstripNl (strJoin buffer), header_depth, meta⟩])

/-- The flush-unless-kind-matches pattern of the bufferable branches:
`if current_type not in keep: _flush(...)`, where `keep` holds `NONE` and,
for table/quote/list/paragraph lines, the branch's own kind. -/
def flushUnless (st : ParseState) (keep : List SectionType) :
    List String × List ParsedSection :=
  if st.current_type ∈ keep then (st.current_buffer, st.sections)
  else _flush st.current_buffer st.sections st.current_type st.current_header_depth none

/-- The body of the `for raw_line in lines` loop of `parse_lines`, one line
at a time, branch for branch in the source order. -/
def parse_step (st : ParseState) (raw_line : String) : ParseState :=
  let stripped := pyStrip (rstripNl raw_line)
  if st.in_code_block then
    let buf := st.current_buffer ++ [raw_line]
    if fenceCloseHit stripped st.fence_char st.fence_len then
      let fl := _flush buf st.sections SectionType.CODE 0 (mkMeta st.code_lang)
      { st with
        sections := fl.2
        current_buffer := fl.1
        current_type := SectionType.NONE
        in_code_block := false
        fence_char := ""
        fence_len := 0
        code_lang := none }
    else
      { st with current_buffer := buf }
  else if isBlankStripped stripped then
    if st.current_type = SectionType.NONE then st
    else
      let fl := _flush st.current_buffer st.sections st.current_type st.current_header_depth none
      { st with
        sections := fl.2
        current_buffer := fl.1
        current_type := SectionType.NONE
        current_header_depth := 0 }
  else
    match fenceOpenMatch stripped with
    | some fo =>
      let fl := flushUnless st [SectionType.NONE]
      let rest := pyStrip fo.2.2
      { st with
        sections := fl.2
        current_buffer := fl.1 ++ [raw_line]
        current_type := SectionType.CODE
        current_header_depth := 0
        in_code_block := true
        fence_char := String.singleton fo.1
        fence_len := fo.2.1
        code_lang := if rest == "" then none else some (firstToken rest) }
    | none =>
      match headerMatch stripped with
      | some hm =>
        let fl := flushUnless st [SectionType.NONE]
        { st with
          sections := fl.2 ++ [⟨SectionType.HEADER, pyStrip hm.2, hm.1, none⟩]
          current_buffer := fl.1
          current_type := SectionType.NONE
          current_header_depth := 0 }
      | none =>
        if tableMatch stripped then
          let fl := flushUnless st [SectionType.NONE, SectionType.TABLE]
          { st with
            sections := fl.2
            current_buffer := fl.1 ++ [raw_line]
            current_type := SectionType.TABLE
            current_header_depth := 0 }
        else if imageMatch stripped then
          let fl := flushUnless st [SectionType.NONE]
          { st with
            sections := fl.2 ++ [⟨SectionType.IMAGE, stripped, 0, none⟩]
            current_buffer := fl.1
            current_type := SectionType.NONE }
        else if quoteMatch stripped then
          let fl := flushUnless st [SectionType.NONE, SectionType.QUOTE]
          { st with
            sections := fl.2
            current_buffer := fl.1 ++ [raw_line]
            current_type := SectionType.QUOTE
            current_header_depth := 0 }
        else if listMatch stripped then
          let fl := flushUnless st [SectionType.NONE, SectionType.LIST]
          { st with
            sections := fl.2
            current_buffer := fl.1 ++ [raw_line]
            current_type := SectionType.LIST
            current_header_depth := 0 }
        else
          let fl := flushUnless st [SectionType.NONE, SectionType.PARAGRAPH]
          { st with
            sections := fl.2
            current_buffer := fl.1 ++ [raw_line]
            current_type := SectionType.PARAGRAPH
            current_header_depth := 0 }

/-- `parser.parse_lines`: fold the loop body over the lines, then flush the
tail if a block is still open. -/
def parse_lines (lines : List String) : List ParsedSection :=
  let st := lines.foldl parse_step initState
  if st.current_type = SectionType.NONE then st.sections
  else (_flush st.current_buffer st.sections st.current_type st.current_header_depth none).2

/-! ### Basic string lemmas -/

/-- A string with a non-empty character list is not the empty string. -/
theorem ne_empty_of_data_ne_nil {s : String} (h : s.data ≠ []) : s ≠ "" := by
  intro he
  subst he
  exact h rfl

/-- An element that fails the predicate survives `dropWhile`. -/
theorem mem_dropWhile_of_neg {α : Type} {p : α → Bool} {l : List α} {c : α}
    (hc : c ∈ l) (hp : p c = false) : c ∈ l.dropWhile p := by
  induction l with
  | nil => cases hc
  | cons a t ih =>
    rw [List.dropWhile_cons]
    by_cases hpa : p a = true
    · rw [if_pos hpa]
      rcases List.mem_cons.mp hc with h | h
      · subst h; rw [hp] at hpa; cases hpa
      · exact ih h
    · rw [if_neg hpa]
      exact hc

/-- `dropWhile` keeps only elements of the original list. -/
theorem mem_of_mem_dropWhile {α : Type} {p : α → Bool} {l : List α} {c : α}
    (h : c ∈ l.dropWhile p) : c ∈ l :=
  (List.dropWhile_sublist p).subset h

/-- The head of a `dropWhile` result fails the predicate. -/
theorem head_dropWhile_neg {α : Type} {p : α → Bool} {l : List α} {x : α}
    (h : (l.dropWhile p).head? = some x) : p x = false := by
  induction l with
  | nil => cases h
  | cons a t ih =>
    rw [List.dropWhile_cons] at h
    by_cases hpa : p a = true
    · rw [if_pos hpa] at h
      exact ih h
    · rw [if_neg hpa] at h
      cases h
      exact Bool.eq_false_iff.mpr hpa

/-- A non-whitespace character is not a newline. -/
theorem ne_newline_of_not_space {c : Char} (h : pyIsSpace c = false) :
    (c == '\n') = false := by
  cases hc : c == '\n'
  · rfl
  · rw [beq_iff_eq] at hc
    subst hc
    cases h

/-- A character of `s` survives `rstripNl` if it is not a newline. -/
theorem mem_rstripNl_of_mem {s : String} {c : Char} (hc : c ∈ s.data)
    (h : (c == '\n') = false) : c ∈ (rstripNl s).data := by
  unfold rstripNl
  exact List.mem_reverse.mpr (mem_dropWhile_of_neg (List.mem_reverse.mpr hc) h)

/-- Every character of `rstripNl s` is a character of `s`. -/
theorem mem_of_mem_rstripNl {s : String} {c : Char} (hc : c ∈ (rstripNl s).data) :
    c ∈ s.data := by
  unfold rstripNl at hc
  exact List.mem_reverse.mp (mem_of_mem_dropWhile (List.mem_reverse.mp hc))

/-- A string holding a non-whitespace character keeps it through
`rstripNl`, so the result is not empty. -/
theorem rstripNl_ne_empty {s : String} (h : ∃ c ∈ s.data, pyIsSpace c = false) :
    rstripNl s ≠ "" := by
  obtain ⟨c, hc, hcs⟩ := h
  apply ne_empty_of_data_ne_nil
  intro hnil
  have : c ∈ (rstripNl s).data := mem_rstripNl_of_mem hc (ne_newline_of_not_space hcs)
  rw [hnil] at this
  cases this

/-- Every character of `pyStrip s` is a character of `s`. -/
theorem mem_of_mem_pyStrip {s : String} {c : Char} (hc : c ∈ (pyStrip s).data) :
    c ∈ s.data := by
  unfold pyStrip at hc
  exact mem_of_mem_dropWhile
    (List.mem_reverse.mp (mem_of_mem_dropWhile (List.mem_reverse.mp hc)))

/-- A non-empty stripped string certifies a non-whitespace character in the
original string. -/
theorem pyStrip_ne_empty_witness {s : String} (h : pyStrip s ≠ "") :
    ∃ c ∈ s.data, pyIsSpace c = false := by
  by_contra hall
  apply h
  have hdrop : s.data.dropWhile pyIsSpace = [] := by
    rw [List.dropWhile_eq_nil_iff]
    intro x hx
    cases hpx : pyIsSpace x
    · exact absurd ⟨x, hx, hpx⟩ hall
    · rfl
  unfold pyStrip
  rw [hdrop]
  rfl

/-- `strJoin` distributes over list append at the character level. -/
theorem strJoin_append_data (l₁ l₂ : List String) :
    (strJoin (l₁ ++ l₂)).data = (strJoin l₁).data ++ (strJoin l₂).data := by
  unfold strJoin
  simp [List.map_append, List.flatten_append]

/-- A character of a member string is a character of the join. -/
theorem mem_strJoin_of_mem {l : List String} {s : String} {c : Char}
    (hs : s ∈ l) (hc : c ∈ s.data) : c ∈ (strJoin l).data := by
  unfold strJoin
  exact List.mem_flatten.mpr ⟨s.data, List.mem_map_of_mem String.data hs, hc⟩

/-! ### Flush lemmas -/

/-- `_flush` on an empty buffer changes nothing. -/
theorem flush_nil (secs : List ParsedSection) (t : SectionType) (d : Nat)
    (m : Option (List (String × String))) : _flush [] secs t d m = ([], secs) := rfl

/-- `_flush` on a non-empty buffer clears it and appends one section whose
content is the joined buffer with trailing newlines removed. -/
theorem flush_cons {buffer : List String} (hb : buffer ≠ [])
    (secs : List ParsedSection) (t : SectionType) (d : Nat)
    (m : Option (List (String × String))) :
    _flush buffer secs t d m =
      ([], secs ++ [⟨t, rstripNl (strJoin buffer), d, m⟩]) := by
  unfold _flush
  rw [if_neg (by simpa [List.isEmpty_iff] using hb)]

/-- The buffer `flushUnless` returns is empty or the untouched old buffer. -/
theorem flushUnless_fst (st : ParseState) (keep : List SectionType) :
    (flushUnless st keep).1 = [] ∨ (flushUnless st keep).1 = st.current_buffer := by
  unfold flushUnless _flush
  split
  · exact Or.inr rfl
  · split
    · exact Or.inr rfl
    · exact Or.inl rfl

/-! ### The reachability invariant of the accumulator -/

/-- What is true of every finalized section: content is non-empty except
for headers, and only code sections carry metadata. -/
def SecOk (s : ParsedSection) : Prop :=
  (s.content ≠ "" ∨ s.type = SectionType.HEADER) ∧
    (s.meta ≠ none → s.type = SectionType.CODE)

/-- The invariant every reachable accumulator state satisfies: inside a
fence the open kind is `CODE` at depth 0 with a non-empty buffer, a
non-empty buffer always holds a non-whitespace character (so a flush can
never produce empty content), and every emitted section satisfies
`SecOk`. -/
def StInv (st : ParseState) : Prop :=
  (st.in_code_block = true →
      st.current_type = SectionType.CODE ∧ st.current_header_depth = 0 ∧
        st.current_buffer ≠ []) ∧
    (st.current_buffer = [] ∨
      ∃ c ∈ (strJoin st.current_buffer).data, pyIsSpace c = false) ∧
    (∀ s ∈ st.sections, SecOk s)

/-- The initial state satisfies the invariant. -/
theorem stInv_init : StInv initState := by
  refine ⟨?_, Or.inl rfl, ?_⟩
  · intro h
    simp [initState] at h
  · intro s hs
    simp [initState] at hs

/-- The sections `flushUnless` returns stay `SecOk` when the state's buffer
holds a witness character. -/
theorem flushUnless_snd_ok {st : ParseState} (keep : List SectionType)
    (hbuf : st.current_buffer = [] ∨
      ∃ c ∈ (strJoin st.current_buffer).data, pyIsSpace c = false)
    (hsec : ∀ s ∈ st.sections, SecOk s) :
    ∀ s ∈ (flushUnless st keep).2, SecOk s := by
  unfold flushUnless
  split
  · exact hsec
  · rcases hbuf with hnil | hwit
    · rw [hnil, flush_nil]
      exact hsec
    · have hb : st.current_buffer ≠ [] := by
        intro h
        rw [h] at hwit
        obtain ⟨c, hc, -⟩ := hwit
        cases hc
      rw [flush_cons hb]
      intro s hs
      rcases List.mem_append.mp hs with h | h
      · exact hsec s h
      · rcases List.mem_singleton.mp h with rfl
        exact ⟨Or.inl (rstripNl_ne_empty hwit), fun hm => absurd rfl hm⟩

/-- A buffer whose join holds a non-whitespace character is non-empty. -/
theorem buffer_ne_of_wit {buffer : List String}
    (hwit : ∃ c ∈ (strJoin buffer).data, pyIsSpace c = false) : buffer ≠ [] := by
  intro h
  rw [h] at hwit
  obtain ⟨c, hc, -⟩ := hwit
  cases hc

/-- Appending a line keeps an existing witness character of the buffer. -/
theorem bufwit_append_left {buffer : List String} (raw : String)
    (h : ∃ c ∈ (strJoin buffer).data, pyIsSpace c = false) :
    ∃ c ∈ (strJoin (buffer ++ [raw])).data, pyIsSpace c = false := by
  obtain ⟨c, hc, hcs⟩ := h
  refine ⟨c, ?_, hcs⟩
  rw [strJoin_append_data]
  exact List.mem_append_left _ hc

/-- A line holding a non-whitespace character witnesses for any buffer it
is appended to. -/
theorem bufwit_append_right (buffer : List String) {raw : String}
    (hw : ∃ c ∈ raw.data, pyIsSpace c = false) :
    ∃ c ∈ (strJoin (buffer ++ [raw])).data, pyIsSpace c = false := by
  obtain ⟨c, hc, hcs⟩ := hw
  exact ⟨c, mem_strJoin_of_mem (List.mem_append_right _ (List.mem_singleton_self raw)) hc, hcs⟩

/-- A line that is not blank holds a non-whitespace character. -/
theorem not_blank_witness {raw : String}
    (h : ¬ isBlankStripped (pyStrip (rstripNl raw)) = true) :
    ∃ c ∈ raw.data, pyIsSpace c = false := by
  have hne : pyStrip (rstripNl raw) ≠ "" := by
    intro he
    apply h
    rw [isBlankStripped, he]
    rfl
  obtain ⟨c, hc, hcs⟩ := pyStrip_ne_empty_witness hne
  exact ⟨c, mem_of_mem_rstripNl hc, hcs⟩

/-- A non-blank line keeps a non-empty stripped form. -/
theorem stripped_ne_of_not_blank {raw : String}
    (h : ¬ isBlankStripped (pyStrip (rstripNl raw)) = true) :
    pyStrip (rstripNl raw) ≠ "" := by
  intro he
  apply h
  rw [isBlankStripped, he]
  rfl

/-- The invariant survives the bufferable branches (fence open, table,
quote, list, paragraph all append the raw line to the kept-or-flushed
buffer). -/
theorem stInv_bufferable {st : ParseState} {raw : String}
    (keep : List SectionType) (k : SectionType) (d : Nat) (b : Bool)
    (fc : String) (fl : Nat) (cl : Option String)
    (hb : b = true → k = SectionType.CODE ∧ d = 0)
    (hw : ∃ c ∈ raw.data, pyIsSpace c = false)
    (hbuf : st.current_buffer = [] ∨
      ∃ c ∈ (strJoin st.current_buffer).data, pyIsSpace c = false)
    (hsec : ∀ s ∈ st.sections, SecOk s) :
    StInv { st with
            sections := (flushUnless st keep).2
            current_buffer := (flushUnless st keep).1 ++ [raw]
            current_type := k
            current_header_depth := d
            in_code_block := b
            fence_char := fc
            fence_len := fl
            code_lang := cl } := by
  unfold StInv
  refine ⟨?_, ?_, ?_⟩
  · intro hbt
    obtain ⟨hk, hd⟩ := hb hbt
    exact ⟨hk, hd, by simp⟩
  · exact Or.inr (bufwit_append_right _ hw)
  · exact flushUnless_snd_ok keep hbuf hsec

/-- The invariant survives `parse_step`: the core preservation lemma. -/
theorem stInv_step {st : ParseState} (raw : String) (h : StInv st) :
    StInv (parse_step st raw) := by
  obtain ⟨hcode, hbuf, hsec⟩ := h
  simp only [parse_step]
  split
  · -- inside a fence: the raw line is buffered first
    next hic =>
    obtain ⟨-, -, hbne⟩ := hcode hic
    have hwit : ∃ c ∈ (strJoin st.current_buffer).data, pyIsSpace c = false :=
      hbuf.resolve_left hbne
    split
    · -- a matching close fence flushes the buffer as a Code section
      next hclose =>
      rw [flush_cons (show st.current_buffer ++ [raw] ≠ [] by simp)]
      refine ⟨fun hbt => absurd hbt Bool.false_ne_true, Or.inl rfl, ?_⟩
      intro s hs
      rcases List.mem_append.mp hs with h | h
      · exact hsec s h
      · rcases List.mem_singleton.mp h with rfl
        exact ⟨Or.inl (rstripNl_ne_empty (bufwit_append_left raw hwit)), fun _ => rfl⟩
    · -- no close: stay in the fence with the line buffered
      next hclose =>
      refine ⟨?_, Or.inr (bufwit_append_left raw hwit), hsec⟩
      intro hbt
      obtain ⟨ht, hd, -⟩ := hcode hic
      exact ⟨ht, hd, by simp⟩
  · next hic =>
    split
    · -- blank line
      next hblank =>
      split
      · -- nothing open: no-op
        exact ⟨hcode, hbuf, hsec⟩
      · -- flush the open block
        next htype =>
        rcases hbuf with hnil | hwit
        · rw [hnil, flush_nil]
          exact ⟨fun hbt => absurd hbt hic, Or.inl rfl, hsec⟩
        · rw [flush_cons (buffer_ne_of_wit hwit)]
          refine ⟨fun hbt => absurd hbt hic, Or.inl rfl, ?_⟩
          intro s hs
          rcases List.mem_append.mp hs with h | h
          · exact hsec s h
          · rcases List.mem_singleton.mp h with rfl
            exact ⟨Or.inl (rstripNl_ne_empty hwit), fun hm => absurd rfl hm⟩
    · next hblank =>
      split
      · -- fence open
        next fo hfo =>
        exact stInv_bufferable _ _ _ _ _ _ _ (fun _ => ⟨rfl, rfl⟩)
          (not_blank_witness hblank) hbuf hsec
      · next hfo =>
        split
        · -- ATX header: emitted immediately, never buffered
          next hm hhm =>
          refine ⟨fun hbt => absurd hbt hic, ?_, ?_⟩
          · rcases flushUnless_fst st [SectionType.NONE] with hfl | hfl
            · exact Or.inl hfl
            · rw [hfl]
              exact hbuf
          · intro s hs
            rcases List.mem_append.mp hs with h | h
            · exact flushUnless_snd_ok _ hbuf hsec s h
            · rcases List.mem_singleton.mp h with rfl
              exact ⟨Or.inr rfl, fun hm => absurd rfl hm⟩
        · next hhm =>
          split
          · -- table row
            next htab =>
            exact stInv_bufferable _ _ _ _ _ _ _ (fun hbt => absurd hbt hic)
              (not_blank_witness hblank) hbuf hsec
          · next htab =>
            split
            · -- image: emitted immediately, never buffered
              next himg =>
              refine ⟨fun hbt => absurd hbt hic, ?_, ?_⟩
              · rcases flushUnless_fst st [SectionType.NONE] with hfl | hfl
                · exact Or.inl hfl
                · rw [hfl]
                  exact hbuf
              · intro s hs
                rcases List.mem_append.mp hs with h | h
                · exact flushUnless_snd_ok _ hbuf hsec s h
                · rcases List.mem_singleton.mp h with rfl
                  exact ⟨Or.inl (stripped_ne_of_not_blank hblank), fun hm => absurd rfl hm⟩
            · next himg =>
              split
              · -- block quote
                next hq =>
                exact stInv_bufferable _ _ _ _ _ _ _ (fun hbt => absurd hbt hic)
                  (not_blank_witness hblank) hbuf hsec
              · next hq =>
                split
                · -- list item
                  next hl =>
                  exact stInv_bufferable _ _ _ _ _ _ _ (fun hbt => absurd hbt hic)
                    (not_blank_witness hblank) hbuf hsec
                · -- paragraph fallback
                  next hl =>
                  exact stInv_bufferable _ _ _ _ _ _ _ (fun hbt => absurd hbt hic)
                    (not_blank_witness hblank) hbuf hsec

/-- The invariant holds after folding any line list from an invariant
state. -/
theorem stInv_foldl (lines : List String) :
    ∀ st : ParseState, StInv st → StInv (lines.foldl parse_step st) := by
  induction lines with
  | nil => intro st h; exact h
  | cons a t ih => intro st h; exact ih _ (stInv_step a h)

/-! ### Branch equations of `parse_step` -/

/-- A fence-open line is never blank (it starts with a fence character). -/
theorem fenceOpen_not_blank {s : String} {x : Char × Nat × String}
    (h : fenceOpenMatch s = some x) : isBlankStripped s = false := by
  by_contra hb
  rw [Bool.not_eq_false] at hb
  have hdis : (s = "" ∨ s = "&nbsp") ∨ s = "&nbsp;" := by
    simpa [isBlankStripped] using hb
  rcases hdis with (rfl | rfl) | rfl <;> exact Option.noConfusion h

/-- Inside a fence, a line matching the close rule flushes the buffer as a
Code section and resets the fence state. -/
theorem parse_step_close_eq {st : ParseState} {raw : String}
    (hic : st.in_code_block = true)
    (hcl : fenceCloseHit (pyStrip (rstripNl raw)) st.fence_char st.fence_len = true) :
    parse_step st raw =
      { st with
        sections := st.sections ++
          [⟨SectionType.CODE, rstripNl (strJoin (st.current_buffer ++ [raw])), 0,
            mkMeta st.code_lang⟩]
        current_buffer := []
        current_type := SectionType.NONE
        in_code_block := false
        fence_char := ""
        fence_len := 0
        code_lang := none } := by
  simp only [parse_step]
  rw [hic, hcl, flush_cons (show st.current_buffer ++ [raw] ≠ [] by simp)]
  rfl

/-- Inside a fence, a line not matching the close rule is only buffered. -/
theorem parse_step_noclose_eq {st : ParseState} {raw : String}
    (hic : st.in_code_block = true)
    (hcl : fenceCloseHit (pyStrip (rstripNl raw)) st.fence_char st.fence_len = false) :
    parse_step st raw = { st with current_buffer := st.current_buffer ++ [raw] } := by
  simp only [parse_step]
  rw [hic, hcl]
  rfl

/-- Outside a fence, a fence-open line flushes any open block and enters
the fence, recording delimiter character, run length and language hint. -/
theorem parse_step_open_eq {st : ParseState} {raw : String} {c : Char} {n : Nat}
    {rest : String} (hic : st.in_code_block = false)
    (hfo : fenceOpenMatch (pyStrip (rstripNl raw)) = some (c, n, rest)) :
    parse_step st raw =
      { st with
        sections := (flushUnless st [SectionType.NONE]).2
        current_buffer := (flushUnless st [SectionType.NONE]).1 ++ [raw]
        current_type := SectionType.CODE
        current_header_depth := 0
        in_code_block := true
        fence_char := String.singleton c
        fence_len := n
        code_lang :=
          if pyStrip rest == "" then none else some (firstToken (pyStrip rest)) } := by
  have hnb := fenceOpen_not_blank hfo
  simp only [parse_step]
  rw [hic, hnb, hfo]
  rfl

/-- Outside a fence, a blank line with no open block changes nothing. -/
theorem parse_step_blank_id {st : ParseState} {raw : String}
    (hic : st.in_code_block = false)
    (hblank : isBlankStripped (pyStrip (rstripNl raw)) = true)
    (htype : st.current_type = SectionType.NONE) :
    parse_step st raw = st := by
  simp only [parse_step]
  rw [hic, hblank, htype]
  rfl

/-- Folding any number of blank lines over an idle state is the identity. -/
theorem blanks_foldl_id :
    ∀ (blanks : List String) (st : ParseState),
      st.current_type = SectionType.NONE → st.in_code_block = false →
      (∀ b ∈ blanks, isBlankStripped (pyStrip (rstripNl b)) = true) →
      blanks.foldl parse_step st = st := by
  intro blanks
  induction blanks with
  | nil => intro st h1 h2 hb; rfl
  | cons b bs ih =>
    intro st h1 h2 hb
    rw [List.foldl_cons, parse_step_blank_id h2 (hb b (List.mem_cons_self b bs)) h1]
    exact ih st h1 h2 (fun x hx => hb x (List.mem_cons_of_mem b hx))

/-- The close condition spelt out on the characters of the stripped line:
a run of at least three fence characters (of either family, in any mix)
whose first character is the recorded opener and whose length reaches the
recorded opening run length. -/
theorem fenceCloseHit_iff (s : String) (fc : String) (n : Nat) :
    fenceCloseHit s fc n = true ↔
      (s.data.all isFenceChar = true ∧ 3 ≤ s.data.length ∧ fc ≠ "" ∧
        (∃ c, s.data.head? = some c ∧ String.singleton c = fc) ∧
        n ≤ s.data.length) := by
  cases hd : s.data with
  | nil =>
    unfold fenceCloseHit
    rw [hd]
    simp
  | cons a t =>
    unfold fenceCloseHit
    rw [hd]
    simp only [Bool.and_eq_true, decide_eq_true_eq, Bool.not_eq_true',
      beq_eq_false_iff_ne, beq_iff_eq, List.head?_cons, Option.some_inj,
      List.length_cons]
    constructor
    · rintro ⟨⟨⟨⟨h1, h2⟩, h3⟩, h4⟩, h5⟩
      exact ⟨h1, h2, h3, ⟨a, rfl, h4⟩, h5⟩
    · rintro ⟨h1, h2, h3, ⟨c, rfl, h4⟩, h5⟩
      exact ⟨⟨⟨⟨h1, h2⟩, h3⟩, h4⟩, h5⟩

/-! ### Decomposition of the trailing-newline strip -/

/-- `rstripNl` removes exactly the maximal run of trailing newlines. -/
theorem rstripNl_decomp (s : String) :
    ∃ k, s.data = (rstripNl s).data ++ List.replicate k '\n' := by
  refine ⟨(s.data.reverse.takeWhile (fun c => c == '\n')).length, ?_⟩
  show s.data =
    (s.data.reverse.dropWhile (fun c => c == '\n')).reverse ++ List.replicate _ '\n'
  conv_lhs =>
    rw [← List.reverse_reverse s.data,
      ← List.takeWhile_append_dropWhile (fun c => c == '\n') s.data.reverse]
  rw [List.reverse_append]
  congr 1
  have hall : ∀ b ∈ (s.data.reverse.takeWhile (fun c => c == '\n')).reverse, b = '\n' := by
    intro b hb
    have h1 : b ∈ List.takeWhile (fun c => c == '\n') s.data.reverse :=
      List.mem_reverse.mp hb
    have h2 : (b == '\n') = true :=
      @List.mem_takeWhile_imp Char (fun c => c == '\n') s.data.reverse b h1
    exact eq_of_beq h2
  rw [List.eq_replicate_of_mem hall, List.length_reverse]

/-- The result of `rstripNl` never ends with a newline. -/
theorem rstripNl_getLast (s : String) : (rstripNl s).data.getLast? ≠ some '\n' := by
  show ((s.data.reverse.dropWhile (fun c => c == '\n')).reverse).getLast? ≠ some '\n'
  rw [List.getLast?_reverse]
  intro h
  exact absurd (head_dropWhile_neg h) (by decide)

/-- Every section `parse_lines` returns satisfies `SecOk`: non-empty
content (headers apart) and metadata only on code sections. -/
theorem parse_lines_sections_ok (lines : List String) (s : ParsedSection)
    (hs : s ∈ parse_lines lines) : SecOk s := by
  obtain ⟨hcode, hbuf, hsec⟩ := stInv_foldl lines initState stInv_init
  simp only [parse_lines] at hs
  split at hs
  · exact hsec s hs
  · rcases hbuf with hnil | hwit
    · rw [hnil, flush_nil] at hs
      exact hsec s hs
    · rw [flush_cons (buffer_ne_of_wit hwit)] at hs
      rcases List.mem_append.mp hs with h | h
      · exact hsec s h
      · rcases List.mem_singleton.mp h with rfl
        exact ⟨Or.inl (rstripNl_ne_empty hwit), fun hm => absurd rfl hm⟩

/-- The finalization rule as the specification words it, for comparison
with `_flush`: concatenate the buffered raw lines and strip only a single
trailing newline when one is present. -/
def claimedFlushContent (buffer : List String) : String :=
  if (strJoin buffer).data.getLast? = some '\n' then
    String.mk (strJoin buffer).data.dropLast
  else strJoin buffer

/-! ### The claims -/

/-- C1: on the spec's setext scenario the parser emits no Header at all:
`parse_lines` has no setext-underline branch (the `_SETEXT_H1_RE` and
`_SETEXT_H2_RE` patterns of `constants.py` are never consulted), so the
`=======` and `-------` lines fall through to the paragraph fallback and
the whole input becomes one Paragraph section. -/
theorem setext_input_single_paragraph :
    parse_lines ["Title 1\n", "=======\n", "Title 2\n", "-------\n"] =
      [⟨SectionType.PARAGRAPH, "Title 1\n=======\nTitle 2\n-------", 0, none⟩] := by
  decide

/-- C3 counterexample: inside a backtick fence, the line `` ```~ `` is a
mixed backtick/tilde run, not three repetitions of the opening character,
yet it closes the block: the close pattern accepts any `[`~]{3,}` run and
only the first character is compared with the opener.  The following
`hello` line therefore starts a fresh Paragraph instead of staying fence
content. -/
theorem mixed_fence_run_closes_block :
    parse_lines ["```\n", "```~\n", "hello\n"] =
      [⟨SectionType.CODE, "```\n```~", 0, none⟩,
        ⟨SectionType.PARAGRAPH, "hello", 0, none⟩] := by
  decide

/-- C3 amended: while inside a fence, a line closes the block if and only
if, after whitespace trimming, it is a run of at least three fence
characters (backticks or tildes, in any mix) whose first character equals
the recorded opening character and whose length is at least the opening
run length. -/
theorem fence_close_characterization (st : ParseState) (raw_line : String)
    (h : st.in_code_block = true) :
    (parse_step st raw_line).in_code_block = false ↔
      ((pyStrip (rstripNl raw_line)).data.all isFenceChar = true ∧
        3 ≤ (pyStrip (rstripNl raw_line)).data.length ∧
        st.fence_char ≠ "" ∧
        (∃ c, (pyStrip (rstripNl raw_line)).data.head? = some c ∧
          String.singleton c = st.fence_char) ∧
        st.fence_len ≤ (pyStrip (rstripNl raw_line)).data.length) := by
  rw [← fenceCloseHit_iff]
  cases hcl : fenceCloseHit (pyStrip (rstripNl raw_line)) st.fence_char st.fence_len
  · rw [parse_step_noclose_eq h hcl]
    simp [h]
  · rw [parse_step_close_eq h hcl]
    simp

/-- C3 witness: the characterization applied inside an open 3-backtick
fence to the line `` ```~ ``. -/
theorem fence_close_characterization_witness :
    (parse_step (⟨[], ["```\n"], SectionType.CODE, 0, true, "`", 3, none⟩ : ParseState)
        "```~\n").in_code_block = false ↔
      ((pyStrip (rstripNl "```~\n")).data.all isFenceChar = true ∧
        3 ≤ (pyStrip (rstripNl "```~\n")).data.length ∧
        ("`" : String) ≠ "" ∧
        (∃ c, (pyStrip (rstripNl "```~\n")).data.head? = some c ∧
          String.singleton c = "`") ∧
        3 ≤ (pyStrip (rstripNl "```~\n")).data.length) :=
  fence_close_characterization
    ⟨[], ["```\n"], SectionType.CODE, 0, true, "`", 3, none⟩ "```~\n" rfl

/-- C4 counterexample: the metadata key the parser attaches is `lang`, not
`language`: on the spec's own scenario the Code section's metadata is
`{lang: "python"}` and a `language` lookup finds nothing. -/
theorem metadata_key_is_not_language :
    parse_lines ["```python\n", "pass\n", "```\n"] =
      [⟨SectionType.CODE, "```python\npass\n```", 0, some [("lang", "python")]⟩] ∧
    ([("lang", "python")] : List (String × String)).lookup "language" = none ∧
    ([("lang", "python")] : List (String × String)).lookup "lang" = some "python" :=
  ⟨by decide, by decide, by decide⟩

/-- C4 amended: only Code sections ever carry metadata; a fence opened with
a non-empty info string records its first whitespace-delimited token as the
language hint, and a matching close emits the Code section with metadata
`[("lang", hint)]` when a hint was recorded and with no metadata when the
info string was absent. -/
theorem code_metadata_lang_key :
    (∀ (lines : List String) (s : ParsedSection), s ∈ parse_lines lines →
        s.meta ≠ none → s.type = SectionType.CODE) ∧
    (∀ (st : ParseState) (raw : String) (c : Char) (n : Nat) (rest : String),
        st.in_code_block = false →
        fenceOpenMatch (pyStrip (rstripNl raw)) = some (c, n, rest) →
        (parse_step st raw).code_lang =
          (if pyStrip rest == "" then none else some (firstToken (pyStrip rest)))) ∧
    (∀ (st : ParseState) (raw : String) (l : String),
        st.in_code_block = true →
        fenceCloseHit (pyStrip (rstripNl raw)) st.fence_char st.fence_len = true →
        st.code_lang = some l → l ≠ "" →
        (parse_step st raw).sections = st.sections ++
          [⟨SectionType.CODE, rstripNl (strJoin (st.current_buffer ++ [raw])), 0,
            some [("lang", l)]⟩]) ∧
    (∀ (st : ParseState) (raw : String),
        st.in_code_block = true →
        fenceCloseHit (pyStrip (rstripNl raw)) st.fence_char st.fence_len = true →
        st.code_lang = none →
        (parse_step st raw).sections = st.sections ++
          [⟨SectionType.CODE, rstripNl (strJoin (st.current_buffer ++ [raw])), 0,
            none⟩]) := by
  refine ⟨?_, ?_, ?_, ?_⟩
  · intro lines s hs hm
    exact (parse_lines_sections_ok lines s hs).2 hm
  · intro st raw c n rest hic hfo
    rw [parse_step_open_eq hic hfo]
  · intro st raw l hic hcl hl hlne
    rw [parse_step_close_eq hic hcl, hl]
    have hne : (l == "") = false := beq_eq_false_iff_ne.mpr hlne
    simp [mkMeta, hne]
  · intro st raw hic hcl hl
    rw [parse_step_close_eq hic hcl, hl]
    rfl

/-- C5: no section `parse_lines` emits has empty content, except that a
Header section's content may be empty. -/
theorem no_empty_section (lines : List String) (s : ParsedSection)
    (hs : s ∈ parse_lines lines) :
    s.content ≠ "" ∨ s.type = SectionType.HEADER :=
  (parse_lines_sections_ok lines s hs).1

/-- C5 witness: the invariant at the Paragraph section of the input
`hi\n`. -/
theorem no_empty_section_witness :
    (⟨SectionType.PARAGRAPH, "hi", 0, none⟩ : ParsedSection).content ≠ "" ∨
      (⟨SectionType.PARAGRAPH, "hi", 0, none⟩ : ParsedSection).type =
        SectionType.HEADER :=
  no_empty_section ["hi\n"] ⟨SectionType.PARAGRAPH, "hi", 0, none⟩ (by decide)

/-- C7 counterexample: flushing a fence left open at end of input whose
buffer ends in a blank line removes every trailing newline, not exactly
one: the three buffered lines join to a string ending in two newlines, the
emitted content drops both, while the claimed rule would keep one. -/
theorem flush_removes_more_than_one_newline :
    parse_lines ["```\n", "a\n", "\n"] = [⟨SectionType.CODE, "```\na", 0, none⟩] ∧
    claimedFlushContent ["```\n", "a\n", "\n"] = "```\na\n" ∧
    ("```\na" : String) ≠ "```\na\n" :=
  ⟨by decide, by decide, by decide⟩

/-- C7 amended: finalizing a non-empty buffer emits one section whose
content is the concatenation of the buffered raw lines with the maximal
run of trailing newline characters removed — trailing whitespace other
than newlines is preserved, and the result never ends in a newline. -/
theorem flush_strips_all_trailing_newlines (buffer : List String)
    (secs : List ParsedSection) (t : SectionType) (d : Nat)
    (m : Option (List (String × String))) (hb : buffer ≠ []) :
    ∃ k, _flush buffer secs t d m =
        ([], secs ++ [⟨t, rstripNl (strJoin buffer), d, m⟩]) ∧
      (strJoin buffer).data = (rstripNl (strJoin buffer)).data ++ List.replicate k '\n' ∧
      (rstripNl (strJoin buffer)).data.getLast? ≠ some '\n' := by
  obtain ⟨k, hk⟩ := rstripNl_decomp (strJoin buffer)
  exact ⟨k, flush_cons hb secs t d m, hk, rstripNl_getLast (strJoin buffer)⟩

/-- C7 witness: the amended flush rule at the buffer `["a\n", "\n"]`. -/
theorem flush_strips_all_trailing_newlines_witness :
    ∃ k, _flush ["a\n", "\n"] [] SectionType.PARAGRAPH 0 none =
        ([], [] ++ [⟨SectionType.PARAGRAPH, rstripNl (strJoin ["a\n", "\n"]), 0, none⟩]) ∧
      (strJoin ["a\n", "\n"]).data =
        (rstripNl (strJoin ["a\n", "\n"])).data ++ List.replicate k '\n' ∧
      (rstripNl (strJoin ["a\n", "\n"])).data.getLast? ≠ some '\n' :=
  flush_strips_all_trailing_newlines ["a\n", "\n"] [] SectionType.PARAGRAPH 0 none
    (by decide)

/-- C8: when the state after a prefix is idle (no open block, not inside a
fence), inserting any number of blank lines there leaves the parse of the
whole input unchanged — in particular section count and kinds. -/
theorem blank_line_insertion_invariant (p blanks s : List String)
    (hb : ∀ b ∈ blanks, isBlankStripped (pyStrip (rstripNl b)) = true)
    (h1 : (p.foldl parse_step initState).current_type = SectionType.NONE)
    (h2 : (p.foldl parse_step initState).in_code_block = false) :
    parse_lines (p ++ blanks ++ s) = parse_lines (p ++ s) := by
  have key : (p ++ blanks ++ s).foldl parse_step initState
      = (p ++ s).foldl parse_step initState := by
    rw [List.foldl_append, List.foldl_append, List.foldl_append,
      blanks_foldl_id blanks _ h1 h2 hb]
  simp only [parse_lines]
  rw [key]

/-- C8 witness: two extra blank lines between a flushed paragraph and the
next paragraph change nothing. -/
theorem blank_line_insertion_invariant_witness :
    parse_lines (["a\n", "\n"] ++ ["\n", "  \n"] ++ ["b\n"]) =
      parse_lines (["a\n", "\n"] ++ ["b\n"]) :=
  blank_line_insertion_invariant ["a\n", "\n"] ["\n", "  \n"] ["b\n"]
    (by decide) (by decide) (by decide)

/-- C9: parsing is deterministic — the result depends on nothing but the
line sequence, since `parse_lines` folds a pure step function from a fixed
initial state and the module keeps no state across calls. -/
theorem parse_lines_deterministic (l1 l2 : List String) (h : l1 = l2) :
    parse_lines l1 = parse_lines l2 := by
  rw [h]

/-- C9 witness: two runs on the same input agree. -/
theorem parse_lines_deterministic_witness :
    parse_lines ["# A\n"] = parse_lines ["# A\n"] :=
  parse_lines_deterministic ["# A\n"] ["# A\n"] rfl

/-- C10: when the input ends while a fence is still open, the tail flush
emits the buffered lines as a Code section with depth 0 and no metadata —
the stored language hint is dropped, since the tail flush passes the
default metadata. -/
theorem eof_open_fence_flushes_plain_code (lines : List String)
    (h : (lines.foldl parse_step initState).in_code_block = true) :
    parse_lines lines =
      (lines.foldl parse_step initState).sections ++
        [⟨SectionType.CODE,
          rstripNl (strJoin (lines.foldl parse_step initState).current_buffer),
          0, none⟩] := by
  obtain ⟨hcode, hbuf, hsec⟩ := stInv_foldl lines initState stInv_init
  obtain ⟨ht, hd, hbne⟩ := hcode h
  simp only [parse_lines]
  rw [if_neg (by rw [ht]; exact fun hc => SectionType.noConfusion hc)]
  rw [ht, hd, flush_cons hbne]

/-- C10 witness: a `python`-tagged fence left open still flushes with no
metadata and depth 0. -/
theorem eof_open_fence_flushes_plain_code_witness :
    parse_lines ["```python\n", "x\n"] =
      (["```python\n", "x\n"].foldl parse_step initState).sections ++
        [⟨SectionType.CODE,
          rstripNl (strJoin (["```python\n", "x\n"].foldl parse_step initState).current_buffer),
          0, none⟩] :=
  eof_open_fence_flushes_plain_code ["```python\n", "x\n"] (by decide)

end Mdslice
